import Mathlib

/-!
Shallow embedding of the AsyncWorker cooperative job scheduler
(src/src/async-worker.js, canonical weighted multi-listener variant, plus the
budget computation of the jobsPerFrameRequest variant in src/unnamed/part_000).

Modelling conventions:
* numeric job weights/priorities are rationals (the JS code only compares and
  adds them; the values exercised are small dyadic numbers);
* a job callable is abstracted by a `throws` flag (whether `fn.apply` throws)
  together with an `id` recording insertion order (job identity);
* event listeners are abstracted by oracles in `Env`: `jobPrevent n` is the
  aggregated result `_emit("job") === false` observed when `jobsComplete = n`,
  `framePrevent` the same for `_emit("framerequest")`;
* host effects (emitting a signal, calling the callable, requesting or
  cancelling a tick) are recorded in an event trace.
-/

namespace AsyncWorker

/-- The valid signal names of `_signals` (line 29 of the source):
`start, stop, break, job, framerequest, complete, error`.
`brk` stands for the source string `break`; the spec calls `framerequest`
the `tick` signal. -/
inductive Sig
  | start
  | stop
  | brk
  | job
  | framerequest
  | complete
  | error
deriving DecidableEq, Repr

/-- Observable host-side actions of one scheduler method. -/
inductive Ev
  | emit (s : Sig)
  | attempt (id : Nat)
  | requestFrame
  | requestTimeout
  | cancelTick
deriving DecidableEq, Repr

/-- One queued job: `[fn, args, weight, priority]` of the source, with `id`
the insertion order (assigned from `jobsCount` at append time) and `throws`
abstracting whether `fn.apply` throws. -/
structure Job where
  id : Nat
  weight : Rat
  priority : Rat
  throws : Bool
deriving DecidableEq, Repr

/-- The mutable fields of an AsyncWorker instance set up by `_init`. -/
structure Worker where
  error : Option Nat
  busy : Bool
  jobList : List Job
  workOnInactive : Bool
  interval : Int
  jobsComplete : Nat
  jobsCount : Nat
deriving DecidableEq, Repr

/-- Host environment for one tick: visibility, listener aggregation oracles
and the handle the host returns for a scheduling request. -/
structure Env where
  browserActive : Bool
  jobPrevent : Nat → Bool
  framePrevent : Bool
  handle : Int

/-- The `_init` state. -/
def init : Worker :=
  { error := none
    busy := false
    jobList := []
    workOnInactive := true
    interval := -1
    jobsComplete := 0
    jobsCount := 0 }

/-- The sort order used by `append`: comparator `a[3] - b[3]`, i.e. ascending
priority. -/
def prioLE (a b : Job) : Bool :=
  decide (a.priority ≤ b.priority)

/-- The `append(fn, args, weight, priority)` method: normalize the weight
(`weight <= 0 || weight > 1` clamps to `1`), push the job, stable-sort the
list by priority, increment `jobsCount`. The new job's `id` is the value of
`jobsCount` before the increment, recording insertion order. -/
def append (s : Worker) (w p : Rat) (throws : Bool) : Worker :=
  let weight := if w ≤ 0 ∨ 1 < w then 1 else w
  let j : Job := ⟨s.jobsCount, weight, p, throws⟩
  { s with
    jobList := (s.jobList ++ [j]).mergeSort prioLE
    jobsCount := s.jobsCount + 1 }

/-- The `clear()` method: cancel the pending tick, reset every field
(`jobsCount` is set to the length of the freshly emptied list, i.e. `0`).
No `_emit` call appears in the source. -/
def clear (s : Worker) : Worker × List Ev :=
  ({ s with
      error := none
      busy := false
      interval := -1
      jobList := []
      jobsComplete := 0
      jobsCount := 0 },
   [Ev.cancelTick])

/-- The private `_stop()` method: reset the interval and emit `stop`. -/
def stopTick (s : Worker) : Worker × List Ev :=
  ({ s with interval := -1 }, [Ev.emit Sig.stop])

/-- The private `_break()` method: reset the interval and emit `break`. -/
def breakTick (s : Worker) : Worker × List Ev :=
  ({ s with interval := -1 }, [Ev.emit Sig.brk])

/-- The private `_continue()` method: request the next tick from the host,
frame-aligned when the browser is active, else a 20ms timeout. -/
def continueTick (env : Env) (s : Worker) : Worker × List Ev :=
  if env.browserActive then
    ({ s with interval := env.handle }, [Ev.requestFrame])
  else
    ({ s with interval := env.handle }, [Ev.requestTimeout])

/-- The private `_complete()` method: clear busy and interval, emit
`complete`, then `clear()`. -/
def completeTick (s : Worker) : Worker × List Ev :=
  let s1 := { s with busy := false, interval := -1 }
  let c := clear s1
  (c.1, Ev.emit Sig.complete :: c.2)

/-- The tick budget of `_worker` (line 159 of the source):
`!this.workOnInactive || this.browserActive ? 1 : 25`. -/
def weightMaxOf (workOnInactive active : Bool) : Rat :=
  if !workOnInactive || active then 1 else 25

/-- The batch-selection loop of `_worker` (lines 163-175): walk the job list
from the front, stopping at the first job with `weight + weightTotal >
weightMax`; returns the number of jobs admitted into this tick's batch. -/
def selectCount (jl : List Job) (weightTotal weightMax : Rat) : Nat :=
  match jl with
  | [] => 0
  | j :: rest =>
    if weightMax < j.weight + weightTotal then 0
    else selectCount rest (weightTotal + j.weight) weightMax + 1

/-- Result of the execution loop: `halted` when `_worker` returned early
(thrown error or job-listener break), `done` when the loop fell through to
the framerequest tail. -/
inductive ExecRes
  | done
  | halted
deriving DecidableEq, Repr

/-- The execution loop of `_worker` (lines 180-216), with fuel `n` standing
for `count - index`. Each iteration shifts the head job and calls it:
on throw the job is unshifted back, the error stored, `error` emitted and the
tick returns; on normal return `jobsComplete` is incremented, `job` emitted
(a listener returning `false` triggers `_break()`), and the loop also exits
early when the browser is active and the executed weight exceeds 1. -/
def execJobs (env : Env) : Nat → Rat → Worker → Worker × List Ev × ExecRes
  | 0, _, s => (s, [], ExecRes.done)
  | n + 1, weightTotal, s =>
    match s.jobList with
    | [] => (s, [], ExecRes.done)
    | j :: rest =>
      if j.throws then
        ({ s with error := some j.id },
         [Ev.attempt j.id, Ev.emit Sig.error], ExecRes.halted)
      else
        let s1 := { s with jobList := rest, jobsComplete := s.jobsComplete + 1 }
        let wTot := weightTotal + j.weight
        if env.jobPrevent s1.jobsComplete then
          let b := breakTick s1
          (b.1, Ev.attempt j.id :: Ev.emit Sig.job :: b.2, ExecRes.halted)
        else if env.browserActive && decide (1 < wTot) then
          (s1, [Ev.attempt j.id, Ev.emit Sig.job], ExecRes.done)
        else
          let r := execJobs env n wTot s1
          (r.1, Ev.attempt j.id :: Ev.emit Sig.job :: r.2.1, r.2.2)

/-- The `_worker()` tick (lines 150-225): bail out via `_stop()` when not
busy; otherwise select a batch within the budget, run the execution loop,
then emit `framerequest` and break, continue or complete. -/
def worker (env : Env) (s : Worker) : Worker × List Ev :=
  if s.busy = false then stopTick s
  else
    let count := selectCount s.jobList 0 (weightMaxOf s.workOnInactive env.browserActive)
    let r := execJobs env count 0 s
    match r.2.2 with
    | ExecRes.halted => (r.1, r.2.1)
    | ExecRes.done =>
      let tr := r.2.1 ++ [Ev.emit Sig.framerequest]
      if env.framePrevent then
        let b := breakTick r.1
        (b.1, tr ++ b.2)
      else if r.1.jobList ≠ [] then
        let c := continueTick env r.1
        (c.1, tr ++ c.2)
      else
        let c := completeTick r.1
        (c.1, tr ++ c.2)

/-- The `start()` method: no-op when busy, else set busy, emit `start` and
request the first tick via `_continue()`. -/
def start (env : Env) (s : Worker) : Worker × List Ev :=
  if s.busy then (s, [])
  else
    let s1 := { s with busy := true }
    let c := continueTick env s1
    (c.1, Ev.emit Sig.start :: c.2)

/-- The `stop()` method: no-op when idle, else clear the busy flag without
emitting anything. -/
def stop (s : Worker) : Worker × List Ev :=
  if s.busy = false then (s, [])
  else ({ s with busy := false }, [])

/-- Valid signal name strings, from `_signals` (line 29 of the source). -/
def signals : List String :=
  ["start", "stop", "break", "job", "framerequest", "complete", "error"]

/-- Error message thrown for an unrecognized signal name. -/
def invalidSignalMsg : String :=
  "AsyncWorker: Failed to execute addEventListener, the eventName argument must be valid signal."

/-- Error message thrown for a non-callable listener. -/
def invalidCallbackMsg : String :=
  "AsyncWorker: Failed to execute addEventListener, the callback argument must be function."

/-- The `addEventListener(eventName, callback)` method: throws when the name
is not in `_signals` (`indexOf === -1`) or the callback is not a function,
otherwise registers the listener and succeeds. -/
def addEventListener (eventName : String) (callbackIsFunction : Bool) :
    Except String Unit :=
  if signals.contains eventName = false then Except.error invalidSignalMsg
  else if callbackIsFunction = false then Except.error invalidCallbackMsg
  else Except.ok ()

/-- One public operation on a scheduler, for reasoning about whole runs. -/
inductive Op
  | append (w p : Rat) (throws : Bool)
  | start (env : Env)
  | stop
  | clear
  | tick (env : Env)

/-- Apply one operation, discarding the trace. -/
def applyOp (s : Worker) : Op → Worker
  | Op.append w p t => append s w p t
  | Op.start env => (start env s).1
  | Op.stop => (stop s).1
  | Op.clear => (clear s).1
  | Op.tick env => (worker env s).1

/-- The state reached from a fresh `_init` scheduler by a sequence of
operations. -/
def run (ops : List Op) : Worker :=
  ops.foldl applyOp init

/-- Sum of the weights of the first `k` queued jobs. -/
def takeWeight (k : Nat) (jl : List Job) : Rat :=
  ((jl.take k).map Job.weight).sum

/-- The budget computed by `_worker` of the jobsPerFrameRequest variant
(src/unnamed/part_000, line 188):
`this.jobsPerFrameRequest * (!this.workOnInactive || this.browserActive ? 1 : 50)`. -/
def part000Count (jobsPerFrameRequest : Rat) (workOnInactive active : Bool) : Rat :=
  jobsPerFrameRequest * (if !workOnInactive || active then 1 else 50)

/-- The strict ordering on jobs by the pair (priority, insertion order). -/
def keyLT (a b : Job) : Prop :=
  a.priority < b.priority ∨ (a.priority = b.priority ∧ a.id < b.id)

/-- The queue is sorted ascending by (priority, insertion order). -/
def sortedByKey (l : List Job) : Prop :=
  l.Pairwise keyLT

/-- The counting invariant of the spec: completed plus pending equals total
appended since the last clear. -/
def countInv (s : Worker) : Prop :=
  s.jobsComplete + s.jobList.length = s.jobsCount

/-- The queue invariant: sorted by (priority, insertion order), and every
queued id is below `jobsCount` (ids are assigned from `jobsCount`). -/
def queueInv (s : Worker) : Prop :=
  sortedByKey s.jobList ∧ ∀ j ∈ s.jobList, j.id < s.jobsCount

lemma keyLT_ne {a b : Job} (h : keyLT a b) : a ≠ b := by
  rintro rfl
  rcases h with h | ⟨-, h⟩
  · exact lt_irrefl _ h
  · exact lt_irrefl _ h

lemma sortedByKey_nodup {l : List Job} (h : sortedByKey l) : l.Nodup :=
  h.imp keyLT_ne

lemma sublist_pair_total {α : Type} {x y : α} :
    ∀ {L : List α}, x ∈ L → y ∈ L → x ≠ y →
      List.Sublist [x, y] L ∨ List.Sublist [y, x] L := by
  intro L
  induction L with
  | nil => simp
  | cons a t ih =>
    intro hx hy hne
    by_cases hxa : x = a
    · subst hxa
      have hyt : y ∈ t := by
        rcases List.mem_cons.mp hy with h | h
        · exact absurd h.symm hne
        · exact h
      exact Or.inl (List.cons_sublist_cons.mpr (List.singleton_sublist.mpr hyt))
    · by_cases hya : y = a
      · subst hya
        have hxt : x ∈ t := by
          rcases List.mem_cons.mp hx with h | h
          · exact absurd h hne
          · exact h
        exact Or.inr (List.cons_sublist_cons.mpr (List.singleton_sublist.mpr hxt))
      · have hxt : x ∈ t := by
          rcases List.mem_cons.mp hx with h | h
          · exact absurd h hxa
          · exact h
        have hyt : y ∈ t := by
          rcases List.mem_cons.mp hy with h | h
          · exact absurd h hya
          · exact h
        exact (ih hxt hyt hne).imp (List.Sublist.cons a) (List.Sublist.cons a)

lemma pair_sublist_antisymm {α : Type} {x y : α} :
    ∀ {L : List α}, L.Nodup → List.Sublist [x, y] L → List.Sublist [y, x] L →
      x = y := by
  intro L
  induction L with
  | nil => intro _ h; exact absurd h.length_le (by simp)
  | cons a t ih =>
    intro hnd h1 h2
    rcases List.sublist_cons_iff.mp h1 with hxyt | ⟨r1, he1, hs1⟩
    · rcases List.sublist_cons_iff.mp h2 with hyxt | ⟨r2, he2, hs2⟩
      · exact ih (List.nodup_cons.mp hnd).2 hxyt hyxt
      · have hya : y = a := (List.cons_eq_cons.mp he2).1
        subst hya
        have hyt : y ∈ t :=
          hxyt.subset (List.mem_cons_of_mem x (List.mem_singleton.mpr rfl))
        exact absurd hyt (List.nodup_cons.mp hnd).1
    · rcases List.sublist_cons_iff.mp h2 with hyxt | ⟨r2, he2, hs2⟩
      · have hxa : x = a := (List.cons_eq_cons.mp he1).1
        subst hxa
        have hxt : x ∈ t :=
          hyxt.subset (List.mem_cons_of_mem y (List.mem_singleton.mpr rfl))
        exact absurd hxt (List.nodup_cons.mp hnd).1
      · have hxa : x = a := (List.cons_eq_cons.mp he1).1
        have hya : y = a := (List.cons_eq_cons.mp he2).1
        rw [hxa, hya]

lemma prioLE_trans : ∀ (a b c : Job), prioLE a b → prioLE b c → prioLE a c := by
  intro a b c hab hbc
  simp only [prioLE, decide_eq_true_eq] at hab hbc ⊢
  exact le_trans hab hbc

lemma prioLE_total : ∀ (a b : Job), prioLE a b || prioLE b a := by
  intro a b
  simp only [prioLE, Bool.or_eq_true, decide_eq_true_eq]
  exact le_total a.priority b.priority

/-- Stability of `append`'s stable sort: pushing a job whose insertion order
is larger than everything in a (priority, insertion-order)-sorted list and
re-sorting by priority yields a (priority, insertion-order)-sorted list. -/
lemma mergeSort_append_key {l : List Job} {b : Job}
    (hs : sortedByKey l) (hid : ∀ x ∈ l, x.id < b.id) :
    sortedByKey ((l ++ [b]).mergeSort prioLE) := by
  have hndIn : (l ++ [b]).Nodup := by
    rw [List.nodup_append]
    refine ⟨sortedByKey_nodup hs, List.nodup_singleton _, ?_⟩
    intro x hx hxb
    simp only [List.mem_singleton] at hxb
    subst hxb
    exact absurd (hid x hx) (lt_irrefl _)
  have hperm := List.mergeSort_perm (l ++ [b]) prioLE
  have hndR : ((l ++ [b]).mergeSort prioLE).Nodup := hperm.nodup_iff.mpr hndIn
  have hsR := List.sorted_mergeSort prioLE_trans prioLE_total (l ++ [b])
  rw [sortedByKey, List.pairwise_iff_forall_sublist]
  intro x y hxy
  have hle : x.priority ≤ y.priority := by
    have := List.pairwise_iff_forall_sublist.mp hsR hxy
    simpa [prioLE] using this
  have hne : x ≠ y := List.pairwise_iff_forall_sublist.mp hndR hxy
  rcases lt_or_eq_of_le hle with hlt | heq
  · exact Or.inl hlt
  · have hx : x ∈ l ++ [b] := List.mem_mergeSort.mp (hxy.subset (by simp))
    have hy : y ∈ l ++ [b] := List.mem_mergeSort.mp (hxy.subset (by simp))
    rcases sublist_pair_total hx hy hne with hin | hin
    · by_cases hyb : y = b
      · subst hyb
        have hxl : x ∈ l := by
          rcases List.mem_append.mp hx with h | h
          · exact h
          · simp only [List.mem_singleton] at h
            exact absurd h hne
        exact Or.inr ⟨heq, hid x hxl⟩
      · have hxl : List.Sublist [x, y] l := by
          rcases List.sublist_append_iff.mp hin with ⟨r₁, r₂, hr, h₁, h₂⟩
          rcases List.sublist_singleton.mp h₂ with rfl | rfl
          · rw [List.append_nil] at hr
            rw [hr]
            exact h₁
          · exfalso
            apply hyb
            have := congrArg List.getLast? hr
            simpa using this
        exact List.pairwise_iff_forall_sublist.mp hs hxl
    · have htie : prioLE y x := by
        simp only [prioLE, decide_eq_true_eq]
        exact heq.symm.le
      have hyx : List.Sublist [y, x] ((l ++ [b]).mergeSort prioLE) :=
        List.pair_sublist_mergeSort prioLE_trans prioLE_total htie hin
      exact absurd (pair_sublist_antisymm hndR hxy hyx) hne

lemma append_queueInv {s : Worker} (h : queueInv s) (w p : Rat) (t : Bool) :
    queueInv (append s w p t) := by
  obtain ⟨hs, hid⟩ := h
  constructor
  · exact mergeSort_append_key hs fun x hx => hid x hx
  · intro j hj
    simp only [append, List.mem_mergeSort, List.mem_append,
      List.mem_singleton] at hj
    rcases hj with h | h
    · exact Nat.lt_succ_of_lt (hid j h)
    · subst h
      exact Nat.lt_succ_self _

lemma append_countInv {s : Worker} (h : countInv s) (w p : Rat) (t : Bool) :
    countInv (append s w p t) := by
  simp only [countInv, append, List.length_mergeSort, List.length_append,
    List.length_singleton] at h ⊢
  omega

/-- Structural effect of the execution loop on the scheduler state: some
number `m` of jobs (bounded by the fuel and the queue length) is removed from
the front and counted into `jobsComplete`; `jobsCount`, `busy` and
`workOnInactive` are untouched. -/
lemma execJobs_shape (env : Env) : ∀ (n : Nat) (w : Rat) (s : Worker),
    ∃ m, m ≤ n ∧ m ≤ s.jobList.length ∧
      (execJobs env n w s).1.jobList = s.jobList.drop m ∧
      (execJobs env n w s).1.jobsComplete = s.jobsComplete + m ∧
      (execJobs env n w s).1.jobsCount = s.jobsCount ∧
      (execJobs env n w s).1.busy = s.busy ∧
      (execJobs env n w s).1.workOnInactive = s.workOnInactive := by
  intro n
  induction n with
  | zero =>
    intro w s
    exact ⟨0, by simp [execJobs]⟩
  | succ n ih =>
    intro w s
    match hl : s.jobList with
    | [] =>
      refine ⟨0, ?_⟩
      simp [execJobs, hl]
    | j :: rest =>
      by_cases ht : j.throws
      · refine ⟨0, ?_⟩
        simp [execJobs, hl, ht]
      · by_cases hp : env.jobPrevent (s.jobsComplete + 1)
        · refine ⟨1, ?_⟩
          simp [execJobs, hl, ht, hp, breakTick]
        · by_cases hv : env.browserActive && decide (1 < w + j.weight)
          · refine ⟨1, ?_⟩
            simp [execJobs, hl, ht, hp, hv]
          · obtain ⟨m, hm1, hm2, hm3, hm4, hm5, hm6, hm7⟩ :=
              ih (w + j.weight)
                { s with jobList := rest, jobsComplete := s.jobsComplete + 1 }
            simp only at hm2 hm3 hm4 hm5 hm6 hm7
            have hstep : (execJobs env (n + 1) w s).1 =
                (execJobs env n (w + j.weight)
                  { s with jobList := rest, jobsComplete := s.jobsComplete + 1 }).1 := by
              simp [execJobs, hl, ht, hp, hv]
            refine ⟨m + 1, by omega, ?_, ?_, ?_, ?_, ?_, ?_⟩
            · simp only [List.length_cons]
              omega
            · rw [hstep, hm3, List.drop_succ_cons]
            · rw [hstep, hm4]
              omega
            · rw [hstep, hm5]
            · rw [hstep, hm6]
            · rw [hstep, hm7]

lemma breakTick_fst (s : Worker) : (breakTick s).1 = { s with interval := -1 } :=
  rfl

lemma stopTick_fst (s : Worker) : (stopTick s).1 = { s with interval := -1 } :=
  rfl

lemma continueTick_fst (env : Env) (s : Worker) :
    (continueTick env s).1 = { s with interval := env.handle } := by
  rw [continueTick]
  split <;> rfl

lemma clear_fst (s : Worker) :
    (clear s).1 =
      { error := none, busy := false, jobList := [], workOnInactive := s.workOnInactive,
        interval := -1, jobsComplete := 0, jobsCount := 0 } :=
  rfl

lemma completeTick_fst (s : Worker) :
    (completeTick s).1 =
      { error := none, busy := false, jobList := [], workOnInactive := s.workOnInactive,
        interval := -1, jobsComplete := 0, jobsCount := 0 } :=
  rfl

lemma worker_countInv {env : Env} {s : Worker} (h : countInv s) :
    countInv (worker env s).1 := by
  by_cases hb : s.busy = false
  · simp only [worker, if_pos hb, stopTick_fst]
    simpa [countInv] using h
  · obtain ⟨m, hm1, hm2, hm3, hm4, hm5, hm6, hm7⟩ :=
      execJobs_shape env
        (selectCount s.jobList 0 (weightMaxOf s.workOnInactive env.browserActive)) 0 s
    simp only [countInv] at h
    simp only [worker, if_neg hb]
    cases hres :
      (execJobs env
        (selectCount s.jobList 0 (weightMaxOf s.workOnInactive env.browserActive)) 0 s).2.2 with
    | halted =>
      simp only [hres, countInv, hm3, hm4, hm5, List.length_drop]
      omega
    | done =>
      simp only [hres]
      by_cases hf : env.framePrevent
      · simp only [if_pos hf, breakTick_fst, countInv, hm3, hm4, hm5, List.length_drop]
        omega
      · simp only [if_neg hf]
        by_cases hne :
            (execJobs env
              (selectCount s.jobList 0 (weightMaxOf s.workOnInactive env.browserActive))
              0 s).1.jobList ≠ []
        · rw [if_pos hne]
          simp only [continueTick_fst, countInv, hm3, hm4, hm5, List.length_drop]
          omega
        · rw [if_neg hne]
          simp only [completeTick_fst, countInv]
          simp

lemma worker_queueInv {env : Env} {s : Worker} (h : queueInv s) :
    queueInv (worker env s).1 := by
  obtain ⟨hsort, hbound⟩ := h
  by_cases hb : s.busy = false
  · simp only [worker, if_pos hb, stopTick_fst]
    exact ⟨hsort, hbound⟩
  · obtain ⟨m, hm1, hm2, hm3, hm4, hm5, hm6, hm7⟩ :=
      execJobs_shape env
        (selectCount s.jobList 0 (weightMaxOf s.workOnInactive env.browserActive)) 0 s
    have hsort2 : sortedByKey (s.jobList.drop m) :=
      List.Pairwise.sublist (List.drop_sublist m s.jobList) hsort
    have hbound2 : ∀ j ∈ s.jobList.drop m, j.id < s.jobsCount :=
      fun j hj => hbound j (List.drop_subset m s.jobList hj)
    simp only [worker, if_neg hb]
    cases hres :
      (execJobs env
        (selectCount s.jobList 0 (weightMaxOf s.workOnInactive env.browserActive)) 0 s).2.2 with
    | halted =>
      simp only [hres, queueInv, hm3, hm5]
      exact ⟨hsort2, hbound2⟩
    | done =>
      simp only [hres]
      by_cases hf : env.framePrevent
      · simp only [if_pos hf, breakTick_fst, queueInv, hm3, hm5]
        exact ⟨hsort2, hbound2⟩
      · simp only [if_neg hf]
        by_cases hne :
            (execJobs env
              (selectCount s.jobList 0 (weightMaxOf s.workOnInactive env.browserActive))
              0 s).1.jobList ≠ []
        · rw [if_pos hne]
          simp only [continueTick_fst, queueInv, hm3, hm5]
          exact ⟨hsort2, hbound2⟩
        · rw [if_neg hne]
          simp only [completeTick_fst, queueInv, sortedByKey]
          simp

lemma start_fst (env : Env) (s : Worker) :
    (start env s).1 = if s.busy then s else { s with busy := true, interval := env.handle } := by
  rw [start]
  split
  · rfl
  · rw [continueTick_fst]

lemma stop_fst (s : Worker) :
    (stop s).1 = if s.busy = false then s else { s with busy := false } := by
  rw [stop]
  split <;> rfl

lemma applyOp_inv {s : Worker} (h : countInv s ∧ queueInv s) (op : Op) :
    countInv (applyOp s op) ∧ queueInv (applyOp s op) := by
  obtain ⟨hc, hq⟩ := h
  cases op with
  | append w p t => exact ⟨append_countInv hc w p t, append_queueInv hq w p t⟩
  | start env =>
    simp only [applyOp, start_fst]
    split
    · exact ⟨hc, hq⟩
    · obtain ⟨hs, hb⟩ := hq
      exact ⟨hc, hs, hb⟩
  | stop =>
    simp only [applyOp, stop_fst]
    split
    · exact ⟨hc, hq⟩
    · obtain ⟨hs, hb⟩ := hq
      exact ⟨hc, hs, hb⟩
  | clear =>
    simp only [applyOp, clear_fst]
    refine ⟨by simp [countInv], by simp [queueInv, sortedByKey]⟩
  | tick env => exact ⟨worker_countInv hc, worker_queueInv hq⟩

lemma foldl_inv : ∀ (ops : List Op) (s : Worker), countInv s ∧ queueInv s →
    countInv (ops.foldl applyOp s) ∧ queueInv (ops.foldl applyOp s) := by
  intro ops
  induction ops with
  | nil => exact fun s h => h
  | cons op rest ih =>
    intro s h
    exact ih _ (applyOp_inv h op)

lemma run_inv (ops : List Op) : countInv (run ops) ∧ queueInv (run ops) := by
  refine foldl_inv ops init ⟨?_, ?_⟩
  · simp [countInv, init]
  · simp [queueInv, init, sortedByKey]

lemma weightMaxOf_one_le (w a : Bool) : 1 ≤ weightMaxOf w a := by
  rw [weightMaxOf]
  split
  · exact le_refl 1
  · norm_num

lemma selectCount_pos {j : Job} {rest : List Job} {wMax : Rat}
    (hw : j.weight ≤ wMax) : 1 ≤ selectCount (j :: rest) 0 wMax := by
  rw [selectCount, if_neg]
  · omega
  · simp only [add_zero, not_lt]
    exact hw

lemma selectCount_weight_le : ∀ (jl : List Job) (wTot wMax : Rat), wTot ≤ wMax →
    wTot + takeWeight (selectCount jl wTot wMax) jl ≤ wMax := by
  intro jl
  induction jl with
  | nil =>
    intro wTot wMax h
    simpa [selectCount, takeWeight] using h
  | cons j rest ih =>
    intro wTot wMax h
    rw [selectCount]
    by_cases hc : wMax < j.weight + wTot
    · rw [if_pos hc]
      simpa [takeWeight] using h
    · rw [if_neg hc]
      push_neg at hc
      have h2 : wTot + j.weight ≤ wMax := by linarith
      have h3 := ih (wTot + j.weight) wMax h2
      simp only [takeWeight, List.take_succ_cons, List.map_cons, List.sum_cons] at h3 ⊢
      linarith

lemma takeWeight_mono {jl : List Job} (hw : ∀ j ∈ jl, 0 ≤ j.weight)
    {k m : Nat} (hkm : k ≤ m) : takeWeight k jl ≤ takeWeight m jl := by
  have hsplit : jl.take m = jl.take k ++ (jl.take m).drop k := by
    conv_lhs => rw [← List.take_append_drop k (jl.take m)]
    rw [List.take_take, min_eq_left hkm]
  rw [takeWeight, takeWeight, hsplit, List.map_append, List.sum_append]
  have hnn : 0 ≤ (((jl.take m).drop k).map Job.weight).sum := by
    apply List.sum_nonneg
    intro x hx
    simp only [List.mem_map] at hx
    obtain ⟨j, hj, rfl⟩ := hx
    exact hw j (List.take_subset m jl (List.drop_subset k (jl.take m) hj))
  linarith

/-- Every tick removes a prefix of the queue whose length is bounded by the
selected batch size. -/
lemma worker_jobList_drop {env : Env} {s : Worker} (hb : s.busy = true) :
    ∃ m, m ≤ selectCount s.jobList 0 (weightMaxOf s.workOnInactive env.browserActive) ∧
      m ≤ s.jobList.length ∧
      (worker env s).1.jobList = s.jobList.drop m := by
  have hbb : ¬s.busy = false := by simp [hb]
  obtain ⟨m, hm1, hm2, hm3, hm4, hm5, hm6, hm7⟩ :=
    execJobs_shape env
      (selectCount s.jobList 0 (weightMaxOf s.workOnInactive env.browserActive)) 0 s
  refine ⟨m, hm1, hm2, ?_⟩
  simp only [worker, if_neg hbb]
  cases hres :
    (execJobs env
      (selectCount s.jobList 0 (weightMaxOf s.workOnInactive env.browserActive)) 0 s).2.2 with
  | halted => simpa [hres] using hm3
  | done =>
    simp only [hres]
    by_cases hf : env.framePrevent
    · rw [if_pos hf]
      simpa [breakTick_fst] using hm3
    · rw [if_neg hf]
      by_cases hne :
          (execJobs env
            (selectCount s.jobList 0 (weightMaxOf s.workOnInactive env.browserActive))
            0 s).1.jobList ≠ []
      · rw [if_pos hne]
        simpa [continueTick_fst] using hm3
      · rw [if_neg hne]
        push_neg at hne
        simp only [completeTick_fst]
        exact hne.symm.trans hm3

/-- A tick on a busy scheduler whose head job throws (and fits the budget, as
every appended job does) stores the error, leaves the queue unchanged with the
failing job still at the front, emits only `error`, and requests no further
tick. -/
lemma worker_throw_head {env : Env} {s : Worker} {j : Job} {rest : List Job}
    (hb : s.busy = true) (hl : s.jobList = j :: rest) (ht : j.throws = true)
    (hw : j.weight ≤ 1) :
    worker env s =
      ({ s with error := some j.id }, [Ev.attempt j.id, Ev.emit Sig.error]) := by
  have hbb : ¬s.busy = false := by simp [hb]
  have h1 : 1 ≤ selectCount s.jobList 0 (weightMaxOf s.workOnInactive env.browserActive) := by
    rw [hl]
    exact selectCount_pos (le_trans hw (weightMaxOf_one_le _ _))
  obtain ⟨k, hk⟩ : ∃ k,
      selectCount s.jobList 0 (weightMaxOf s.workOnInactive env.browserActive) = k + 1 :=
    ⟨selectCount s.jobList 0 (weightMaxOf s.workOnInactive env.browserActive) - 1, by omega⟩
  have hexec : execJobs env (k + 1) 0 s =
      ({ s with error := some j.id },
       [Ev.attempt j.id, Ev.emit Sig.error], ExecRes.halted) := by
    simp [execJobs, hl, ht]
  simp only [worker, if_neg hbb, hk, hexec]

/-- When the execution loop halts without recording an error, the halt came
from a `job` listener returning `false`: the trace ends with the `break`
emission and the interval was reset by `_break()`. -/
lemma execJobs_break_trace (env : Env) : ∀ (n : Nat) (w : Rat) (s : Worker),
    (execJobs env n w s).2.2 = ExecRes.halted →
    (execJobs env n w s).1.error = none →
    ∃ tr0, (execJobs env n w s).2.1 = tr0 ++ [Ev.emit Sig.brk] ∧
      (execJobs env n w s).1.interval = -1 := by
  intro n
  induction n with
  | zero =>
    intro w s hres
    simp [execJobs] at hres
  | succ n ih =>
    intro w s hres herr
    match hl : s.jobList with
    | [] =>
      rw [execJobs, hl] at hres
      simp at hres
    | j :: rest =>
      by_cases ht : j.throws
      · rw [execJobs, hl] at herr
        simp [ht] at herr
      · by_cases hp : env.jobPrevent (s.jobsComplete + 1)
        · refine ⟨[Ev.attempt j.id, Ev.emit Sig.job], ?_, ?_⟩ <;>
            simp [execJobs, hl, ht, hp, breakTick]
        · by_cases hv : env.browserActive && decide (1 < w + j.weight)
          · rw [execJobs, hl] at hres
            simp [ht, hp, hv] at hres
          · have hstep2 : (execJobs env (n + 1) w s).2 =
                (Ev.attempt j.id :: Ev.emit Sig.job ::
                  (execJobs env n (w + j.weight)
                    { s with jobList := rest, jobsComplete := s.jobsComplete + 1 }).2.1,
                 (execJobs env n (w + j.weight)
                   { s with jobList := rest, jobsComplete := s.jobsComplete + 1 }).2.2) := by
              simp [execJobs, hl, ht, hp, hv]
            have hstep1 : (execJobs env (n + 1) w s).1 =
                (execJobs env n (w + j.weight)
                  { s with jobList := rest, jobsComplete := s.jobsComplete + 1 }).1 := by
              simp [execJobs, hl, ht, hp, hv]
            rw [hstep1] at herr
            have hres' : (execJobs env n (w + j.weight)
                { s with jobList := rest, jobsComplete := s.jobsComplete + 1 }).2.2 =
                ExecRes.halted := by
              have := congrArg Prod.snd hstep2
              simp only at this
              rw [← this]
              exact hres
            obtain ⟨tr0, htr, hint⟩ := ih (w + j.weight)
              { s with jobList := rest, jobsComplete := s.jobsComplete + 1 } hres' herr
            refine ⟨Ev.attempt j.id :: Ev.emit Sig.job :: tr0, ?_, ?_⟩
            · have := congrArg Prod.fst hstep2
              simp only at this
              rw [this, htr]
              simp
            · rw [hstep1]
              exact hint

/-- A tick halted by the execution loop returns its state and trace directly:
no `framerequest` emission and no further tick request happen. -/
lemma worker_halted_eq {env : Env} {s : Worker} (hb : s.busy = true)
    (hres : (execJobs env
      (selectCount s.jobList 0 (weightMaxOf s.workOnInactive env.browserActive))
      0 s).2.2 = ExecRes.halted) :
    worker env s =
      ((execJobs env
         (selectCount s.jobList 0 (weightMaxOf s.workOnInactive env.browserActive)) 0 s).1,
       (execJobs env
         (selectCount s.jobList 0 (weightMaxOf s.workOnInactive env.browserActive)) 0 s).2.1) := by
  have hbb : ¬s.busy = false := by simp [hb]
  simp only [worker, if_neg hbb, hres]

/-- A foregrounded environment whose listeners never prevent-default. -/
def envA : Env :=
  { browserActive := true, jobPrevent := fun _ => false, framePrevent := false, handle := 7 }

/-- A foregrounded environment whose `job` listener returns `false` after the
first executed job. -/
def envBrk : Env :=
  { browserActive := true, jobPrevent := fun n => n == 1, framePrevent := false, handle := 7 }

/-- A running scheduler holding one throwing job (as reached by `append` of a
throwing callable followed by `start`). -/
def errState : Worker :=
  { error := none, busy := true, jobList := [⟨0, 1, 0, true⟩],
    workOnInactive := true, interval := 7, jobsComplete := 0, jobsCount := 1 }

/-- Two half-weight jobs of equal priority, in insertion order. -/
def halfJobs : List Job :=
  [⟨0, (1 : Rat) / 2, 0, false⟩, ⟨1, (1 : Rat) / 2, 0, false⟩]

/-- A running scheduler holding the two half-weight jobs. -/
def brkState : Worker :=
  { error := none, busy := true, jobList := halfJobs,
    workOnInactive := true, interval := 7, jobsComplete := 0, jobsCount := 2 }

/-- C1: on every run from a fresh scheduler, after every operation — in
particular after every tick on the success path — `jobsComplete` plus the
pending queue length equals `jobsCount`. -/
theorem claim_c1_counters (ops : List Op) :
    (run ops).jobsComplete + (run ops).jobList.length = (run ops).jobsCount :=
  (run_inv ops).1

/-- C2 counterexample: the batch-selection loop admits zero jobs on a
non-empty queue whose head weight (1) exceeds the budget (1/2) — there is no
single-oversized-job exception in the code. -/
theorem claim_c2_counterexample :
    ([⟨0, 1, 0, false⟩] : List Job) ≠ [] ∧
    selectCount [⟨0, 1, 0, false⟩] 0 (1 / 2) = 0 := by
  constructor
  · simp
  · norm_num [selectCount]

/-- C2 (amended): the batch-selection step admits at least one job on every
non-empty queue whose jobs all have weight at most 1 (which `append`'s clamp
guarantees), because every tick budget `weightMaxOf` is at least 1; the
oversized-job exception claimed by the spec does not exist in the code. -/
theorem claim_c2_amended (jl : List Job) (w a : Bool) (hne : jl ≠ [])
    (hw : ∀ j ∈ jl, j.weight ≤ 1) :
    1 ≤ selectCount jl 0 (weightMaxOf w a) := by
  match jl, hne with
  | j :: rest, _ =>
    exact selectCount_pos (le_trans (hw j (by simp)) (weightMaxOf_one_le w a))

/-- C2 witness: a singleton weight-1 queue under the foregrounded budget. -/
theorem claim_c2_witness :
    1 ≤ selectCount [⟨0, 1, 0, false⟩] 0 (weightMaxOf true true) :=
  claim_c2_amended [⟨0, 1, 0, false⟩] true true (by simp)
    (by intro j hj; simp at hj; subst hj; norm_num)

/-- C3: on every tick of a busy scheduler with nonnegative job weights, the
jobs actually executed (the prefix removed from the queue, of length `m`
bounded by the selected batch) have total weight at most the tick's budget
`weightMaxOf`. -/
theorem claim_c3_budget (env : Env) (s : Worker) (hb : s.busy = true)
    (hw : ∀ j ∈ s.jobList, 0 ≤ j.weight) :
    ∃ m, m ≤ selectCount s.jobList 0 (weightMaxOf s.workOnInactive env.browserActive) ∧
      (worker env s).1.jobList = s.jobList.drop m ∧
      takeWeight m s.jobList ≤ weightMaxOf s.workOnInactive env.browserActive := by
  obtain ⟨m, hm1, hm2, hm3⟩ := worker_jobList_drop hb
  refine ⟨m, hm1, hm3, ?_⟩
  have h0 : (0 : Rat) ≤ weightMaxOf s.workOnInactive env.browserActive :=
    le_trans zero_le_one (weightMaxOf_one_le _ _)
  have h1 := selectCount_weight_le s.jobList 0
    (weightMaxOf s.workOnInactive env.browserActive) h0
  rw [zero_add] at h1
  exact le_trans (takeWeight_mono hw hm1) h1

/-- C3 witness: a tick over the two half-weight jobs. -/
theorem claim_c3_witness :
    ∃ m, m ≤ selectCount brkState.jobList 0
        (weightMaxOf brkState.workOnInactive envA.browserActive) ∧
      (worker envA brkState).1.jobList = brkState.jobList.drop m ∧
      takeWeight m brkState.jobList ≤
        weightMaxOf brkState.workOnInactive envA.browserActive :=
  claim_c3_budget envA brkState rfl
    (by intro j hj; simp [brkState, halfJobs] at hj; rcases hj with rfl | rfl <;> norm_num)

/-- C4: on every run from a fresh scheduler, the job list is sorted
ascending by the pair (priority, insertion order) after every operation —
equal-priority jobs keep their enqueue order, so the drained order is
non-decreasing in that key at every observation point. -/
theorem claim_c4_sorted (ops : List Op) :
    List.Pairwise keyLT (run ops).jobList :=
  (run_inv ops).2.1

/-- C5 counterexample: after a tick whose job throws, the error is recorded
but `busy` is still set, so a subsequent `start()` returns the state
unchanged with an empty trace — it requests no tick and attempts no job, so
the failed job is not retried by `start()` alone. -/
theorem claim_c5_counterexample :
    (worker envA errState).1.error = some 0 ∧
    (worker envA errState).1.busy = true ∧
    start envA (worker envA errState).1 = ((worker envA errState).1, []) := by
  have h := @worker_throw_head envA errState ⟨0, 1, 0, true⟩ [] rfl rfl rfl (le_refl 1)
  rw [h]
  exact ⟨rfl, rfl, rfl⟩

/-- C5 (amended): when a job throws during a tick, it is put back at the
front of the unchanged queue, the error is recorded and emitted and no tick
is requested; after `stop()` (clearing the stuck busy flag) and a subsequent
`start()`, the next tick attempts the same job (same id) first. A bare
`start()` does not resume: the busy guard makes it a no-op. -/
theorem claim_c5_amended (env1 env2 env3 : Env) (s : Worker) (j : Job)
    (rest : List Job) (hb : s.busy = true) (hl : s.jobList = j :: rest)
    (ht : j.throws = true) (hw : j.weight ≤ 1) :
    (worker env1 s).1.error = some j.id ∧
    (worker env1 s).1.jobList = j :: rest ∧
    (worker env1 s).2 = [Ev.attempt j.id, Ev.emit Sig.error] ∧
    worker env3 ((start env2 ((stop (worker env1 s).1).1)).1) =
      ({ (start env2 ((stop (worker env1 s).1).1)).1 with error := some j.id },
       [Ev.attempt j.id, Ev.emit Sig.error]) := by
  have h := @worker_throw_head env1 s j rest hb hl ht hw
  rw [h]
  have hstop : (stop ({ s with error := some j.id } : Worker)).1 =
      { s with error := some j.id, busy := false } := by
    rw [stop_fst, if_neg]
    simp [hb]
  have hstart : (start env2 ({ s with error := some j.id, busy := false } : Worker)).1 =
      { s with error := some j.id, busy := true, interval := env2.handle } := by
    rw [start_fst, if_neg]
    simp
  rw [hstop, hstart]
  exact ⟨rfl, hl, rfl,
    @worker_throw_head env3
      { s with error := some j.id, busy := true, interval := env2.handle }
      j rest rfl hl ht hw⟩

/-- C5 witness: the one-throwing-job scheduler. -/
theorem claim_c5_witness :
    (worker envA errState).1.error = some (Job.mk 0 1 0 true).id ∧
    (worker envA errState).1.jobList = [⟨0, 1, 0, true⟩] ∧
    (worker envA errState).2 =
      [Ev.attempt (Job.mk 0 1 0 true).id, Ev.emit Sig.error] ∧
    worker envA ((start envA ((stop (worker envA errState).1).1)).1) =
      ({ (start envA ((stop (worker envA errState).1).1)).1 with
          error := some (Job.mk 0 1 0 true).id },
       [Ev.attempt (Job.mk 0 1 0 true).id, Ev.emit Sig.error]) :=
  claim_c5_amended envA envA envA errState ⟨0, 1, 0, true⟩ [] rfl rfl rfl (le_refl 1)

/-- C6 (amended): when a `job` listener returns `false` during a batch, the
tick halts with `break` emitted last and the interval reset, and the queue
loses exactly the executed jobs — the drained-but-unexecuted remainder of the
batch stays in the queue (it is not removed), and `jobsComplete` counts only
the jobs executed before the break. -/
theorem claim_c6_amended (env : Env) (s : Worker) (hb : s.busy = true)
    (hhalt : (execJobs env
      (selectCount s.jobList 0 (weightMaxOf s.workOnInactive env.browserActive))
      0 s).2.2 = ExecRes.halted)
    (herr : (execJobs env
      (selectCount s.jobList 0 (weightMaxOf s.workOnInactive env.browserActive))
      0 s).1.error = none) :
    (∃ tr0, (worker env s).2 = tr0 ++ [Ev.emit Sig.brk]) ∧
    (worker env s).1.jobList =
      s.jobList.drop ((worker env s).1.jobsComplete - s.jobsComplete) ∧
    (worker env s).1.interval = -1 := by
  have heq := worker_halted_eq hb hhalt
  obtain ⟨tr0, htr, hint⟩ := execJobs_break_trace env
    (selectCount s.jobList 0 (weightMaxOf s.workOnInactive env.browserActive)) 0 s hhalt herr
  obtain ⟨m, hm1, hm2, hm3, hm4, hm5, hm6, hm7⟩ := execJobs_shape env
    (selectCount s.jobList 0 (weightMaxOf s.workOnInactive env.browserActive)) 0 s
  rw [heq]
  refine ⟨⟨tr0, htr⟩, ?_, hint⟩
  rw [hm3, hm4]
  congr 1
  omega

/-- C6 counterexample: a batch of two half-weight jobs under budget 1 with a
listener break after the first executed job — the claim says the second,
drained-but-unexecuted job is removed from the queue, but it is still there
(only the executed job was removed). -/
theorem claim_c6_counterexample :
    (worker envBrk brkState).1.jobList = [⟨1, (1 : Rat) / 2, 0, false⟩] ∧
    (worker envBrk brkState).1.jobsComplete = 1 ∧
    (worker envBrk brkState).2 = [Ev.attempt 0, Ev.emit Sig.job, Ev.emit Sig.brk] := by
  norm_num [worker, brkState, halfJobs, envBrk, selectCount, weightMaxOf, execJobs,
    breakTick]

/-- C6 witness: the same two-job break scenario. -/
theorem claim_c6_witness :
    (∃ tr0, (worker envBrk brkState).2 = tr0 ++ [Ev.emit Sig.brk]) ∧
    (worker envBrk brkState).1.jobList =
      brkState.jobList.drop
        ((worker envBrk brkState).1.jobsComplete - brkState.jobsComplete) ∧
    (worker envBrk brkState).1.interval = -1 :=
  claim_c6_amended envBrk brkState rfl
    (by norm_num [brkState, halfJobs, envBrk, selectCount, weightMaxOf, execJobs,
      breakTick])
    (by norm_num [brkState, halfJobs, envBrk, selectCount, weightMaxOf, execJobs,
      breakTick])

/-- C7: `clear()` empties the job list, zeroes both counters, clears the busy
flag, resets the pending tick handle and the stored error, and emits no
signal at all (its trace contains no emission, so no registered listener of
any signal is invoked). -/
theorem claim_c7_clear_silent (s : Worker) :
    (clear s).1.jobList = [] ∧ (clear s).1.jobsComplete = 0 ∧
    (clear s).1.jobsCount = 0 ∧ (clear s).1.busy = false ∧
    (clear s).1.interval = -1 ∧ (clear s).1.error = none ∧
    ∀ sig, Ev.emit sig ∉ (clear s).2 := by
  refine ⟨rfl, rfl, rfl, rfl, rfl, rfl, fun sig => ?_⟩
  simp [clear]

/-- C8: `addEventListener` with a callable listener succeeds exactly on the
signal names of `_signals` — `start, stop, break, job, framerequest`
(the signal the spec calls `tick`), `complete` and `error` — and raises the
invalid-signal error on every other name. -/
theorem claim_c8_signals (name : String) :
    (addEventListener name true = Except.ok () ↔ name ∈ signals) ∧
    (name ∉ signals → addEventListener name true = Except.error invalidSignalMsg) := by
  by_cases hmem : name ∈ signals
  · constructor
    · constructor
      · intro _
        exact hmem
      · intro _
        rw [addEventListener, if_neg, if_neg]
        · simp
        · simp [hmem]
    · intro h
      exact absurd hmem h
  · constructor
    · constructor
      · intro h
        rw [addEventListener, if_pos] at h
        · exact absurd h (by simp)
        · simp [hmem]
      · intro h
        exact absurd h hmem
    · intro _
      rw [addEventListener, if_pos]
      simp [hmem]

/-- C9: the tick budget is the base budget times a throttle factor that is 1
when the host is foregrounded or `workOnInactive` is disabled, and the
configured inactive multiplier otherwise — 25 in the weighted variant (base
budget 1) and 50 in the jobsPerFrameRequest variant, both inside the
25-to-60 range. -/
theorem claim_c9_throttle (w a : Bool) (jpf : Rat) :
    weightMaxOf w a = 1 * (if a = true ∨ w = false then 1 else 25) ∧
    part000Count jpf w a = jpf * (if a = true ∨ w = false then 1 else 50) ∧
    (25 ≤ (25 : Rat) ∧ (25 : Rat) ≤ 60) ∧ (25 ≤ (50 : Rat) ∧ (50 : Rat) ≤ 60) := by
  cases w <;> cases a <;> norm_num [weightMaxOf, part000Count]

/-- C10: after a tick in which a job throws, `busy` is still set and no tick
was requested, so a subsequent `start()` is a no-op (state unchanged, empty
trace); `stop()` or `clear()` reset the busy flag. -/
theorem claim_c10_error_busy (env1 env2 : Env) (s : Worker) (j : Job)
    (rest : List Job) (hb : s.busy = true) (hl : s.jobList = j :: rest)
    (ht : j.throws = true) (hw : j.weight ≤ 1) :
    (worker env1 s).1.busy = true ∧
    Ev.requestFrame ∉ (worker env1 s).2 ∧
    Ev.requestTimeout ∉ (worker env1 s).2 ∧
    start env2 (worker env1 s).1 = ((worker env1 s).1, []) ∧
    (stop (worker env1 s).1).1.busy = false ∧
    (clear (worker env1 s).1).1.busy = false := by
  have h := @worker_throw_head env1 s j rest hb hl ht hw
  rw [h]
  refine ⟨hb, by simp, by simp, ?_, ?_, rfl⟩
  · simp [start, hb]
  · simp [stop_fst, hb]

/-- C10 witness: the one-throwing-job scheduler. -/
theorem claim_c10_witness :
    (worker envA errState).1.busy = true ∧
    Ev.requestFrame ∉ (worker envA errState).2 ∧
    Ev.requestTimeout ∉ (worker envA errState).2 ∧
    start envA (worker envA errState).1 = ((worker envA errState).1, []) ∧
    (stop (worker envA errState).1).1.busy = false ∧
    (clear (worker envA errState).1).1.busy = false :=
  claim_c10_error_busy envA envA errState ⟨0, 1, 0, true⟩ [] rfl rfl rfl (le_refl 1)

end AsyncWorker
